import Mathlib

/-!
Verification development for the qsharp Bloch-sphere webview
(`src/vscode/src/webview/webview.tsx`).

The file shallowly embeds the two parts of the source file:

* the histogram/estimates webview message handler (`onMessage`, module-level
  mutable state `histogramData`, `shotCount`, `showEstimates`), and
* the Bloch-sphere component: easing functions, the `BlochRenderer`
  animation queue (`queueGate` with its `processQueue` frame callback,
  `reset`), and the component-level `rotate`/`reset` functions.

The companion module `cplx.js` (complex vectors, gate matrices, the
`Rotations` path engine) is not part of the repository snapshot; those
parts are modelled from the specification and are marked as such in
their doc comments.

JavaScript numbers are modelled as real numbers; machine state mutated
in place in the source is modelled by explicit state passing; the
`requestAnimationFrame` loop is modelled as a step function driven by an
explicit list of operations (frame ticks carrying the wall-clock time,
queue requests, resets).
-/

/-! ## Webview message handler (first part of webview.tsx) -/

/-- Module-level mutable webview state of webview.tsx:
`histogramData`, `shotCount`, `showEstimates`. The histogram map is
modelled as its underlying association list. -/
structure WebState where
  histogramData : List (String × Int)
  shotCount : Int
  showEstimates : Bool
deriving DecidableEq, Repr

/-- Initial webview state: empty map, zero shots, estimates hidden. -/
def initWebState : WebState := ⟨[], 0, false⟩

/-- An incoming `message` event payload. `command = none` models a
missing/undefined command field (with `some ""` also falsy in the
source's `!message?.command` check); `buckets = none` models a
missing/falsy buckets field; `shotCount = some n` models a field whose
`typeof` is `"number"`, `none` models any non-number. -/
structure Msg where
  command : Option String
  buckets : Option (List (String × Int))
  shotCount : Option Int
deriving DecidableEq, Repr

/-- Embedding of `onMessage` (webview.tsx lines 23-50). Returns the new
state and whether `render` was invoked. -/
def onMessage (m : Msg) (s : WebState) : WebState × Bool :=
  match m.command with
  | none => (s, false)
  | some c =>
    if c = "" then (s, false)
    else if c = "update" then
      match m.buckets, m.shotCount with
      | some bs, some n => ({ s with histogramData := bs, shotCount := n }, true)
      | _, _ => (s, false)
    else if c = "estimate" then ({ s with showEstimates := true }, true)
    else (s, false)

/-! ## Easing functions (webview.tsx lines 174-180) -/

/-- Embedding of `easeInOutSine` (webview.tsx line 174). -/
noncomputable def easeInOutSine (x : ℝ) : ℝ := -(Real.cos (Real.pi * x) - 1) / 2

/-- Embedding of `easeOutSine` (webview.tsx line 178). -/
noncomputable def easeOutSine (x : ℝ) : ℝ := Real.sin (x * Real.pi / 2)

/-- Embedding of the constant `rotationTimeMs = 750` (webview.tsx line 256). -/
def rotationTimeMs : ℝ := 750

/-- Eased progress computed each frame in `processQueue`
(webview.tsx lines 412-416): `x = (now - startTime) / rotationTimeMs`;
`t = x < 1 ? easeInOutSine(x) : 1`. -/
noncomputable def tAt (now startTime : ℝ) : ℝ :=
  let x := (now - startTime) / rotationTimeMs
  if x < 1 then easeInOutSine x else 1

/-! ## Trail markers and the per-frame drawing/fading passes -/

/-- Orientation carried as a unit quaternion, following the three.js
`Quaternion` (x, y, z, w components). -/
structure Quat where
  x : ℝ
  y : ℝ
  z : ℝ
  w : ℝ

/-- Identity orientation (three.js default quaternion (0,0,0,1)). -/
def idQuat : Quat := ⟨0, 0, 0, 1⟩

/-- One keyframe of a rotation path. `pos` is the orientation; `ref`
models the back-reference from the keyframe to its rendered marker
(the `val.ref` field written by `processQueue`): `none` if no marker
has been created for the keyframe yet, otherwise the marker handle. -/
structure Keyframe where
  pos : Quat
  ref : Option ℕ

/-- A trail marker (the `trackBall` meshes added to `this.trail`).
`id` is the handle recorded into the keyframe reference, `pos` the
orientation applied to the ball, `sat` the saturation set by the fade
pass (freshly created balls carry the initial gray material, modelled
as saturation 0, and are recolored by the fade pass the same frame). -/
structure Marker where
  id : ℕ
  pos : Quat
  sat : ℝ

/-- Embedding of the marker-creation pass of `processQueue`
(webview.tsx lines 424-440): walk the path keyframes in order; a
keyframe that already holds a marker reference is skipped; a keyframe
without one gets a fresh marker appended to the trail and its handle
recorded in the keyframe. Handles are the trail length at creation
time, following the handle re-architecture of the mesh back-reference. -/
def drawTrail : List Keyframe → List Marker → List Keyframe × List Marker
  | [], trail => ([], trail)
  | kf :: rest, trail =>
    match kf.ref with
    | some _ =>
      let pr := drawTrail rest trail
      (kf :: pr.1, pr.2)
    | none =>
      let m : Marker := ⟨trail.length, kf.pos, 0⟩
      let pr := drawTrail rest (trail ++ [m])
      (⟨kf.pos, some m.id⟩ :: pr.1, pr.2)

/-- Fade weight assigned by the fade pass to the trail entry at
0-based position `i` of a trail of length `n`
(webview.tsx line 448): `easeOutSine((idx + 1) / arr.length)`. -/
noncomputable def fadeSat (n i : ℕ) : ℝ := easeOutSine ((i + 1 : ℝ) / n)

/-- Helper recursion for the fade pass, carrying the running index. -/
noncomputable def fadeTrailGo (n : ℕ) : ℕ → List Marker → List Marker
  | _, [] => []
  | i, m :: rest => { m with sat := fadeSat n i } :: fadeTrailGo n (i + 1) rest

/-- Embedding of the fade pass of `processQueue` (webview.tsx lines
446-452): every trail entry at index `idx` gets saturation
`easeOutSine((idx + 1) / arr.length)`. -/
noncomputable def fadeTrail (trail : List Marker) : List Marker :=
  fadeTrailGo trail.length 0 trail

/-! ## Rotation path engine (modelled from the spec) -/

/-- Rotation axis of an applied gate: one of the three principal axes
or the composite Hadamard axis. -/
inductive Axis
  | x
  | y
  | z
  | h
deriving DecidableEq, Repr

/-- Modelled from the spec: an applied gate is "a descriptor of a
requested rotation — axis or gate identity plus rotation angle"
(spec section 3); produced by the `Rotations.rotateX/Y/Z/H` helpers of
the missing `cplx.js` module and consumed by the animation queue. -/
structure AppliedGate where
  axis : Axis
  angle : ℝ

/-- Modelled from the spec: `Rotations.rotateX` of the missing
`cplx.js` builds the descriptor for a rotation about the x axis. -/
def Rotations.rotateX (angle : ℝ) : AppliedGate := ⟨Axis.x, angle⟩

/-- Modelled from the spec: descriptor for a rotation about the y axis. -/
def Rotations.rotateY (angle : ℝ) : AppliedGate := ⟨Axis.y, angle⟩

/-- Modelled from the spec: descriptor for a rotation about the z axis. -/
def Rotations.rotateZ (angle : ℝ) : AppliedGate := ⟨Axis.z, angle⟩

/-- Modelled from the spec: descriptor for a rotation about the
Hadamard axis, the normalized vector (1,0,1) in the X/Z plane
(spec section 4.3). -/
def Rotations.rotateH (angle : ℝ) : AppliedGate := ⟨Axis.h, angle⟩

/-- Modelled from the spec: unit vector of each rotation axis; the
Hadamard axis is the normalized (1,0,1). -/
noncomputable def axisVec : Axis → ℝ × ℝ × ℝ
  | Axis.x => (1, 0, 0)
  | Axis.y => (0, 1, 0)
  | Axis.z => (0, 0, 1)
  | Axis.h => (1 / Real.sqrt 2, 0, 1 / Real.sqrt 2)

/-- Hamilton product of two quaternions. -/
noncomputable def quatMul (p q : Quat) : Quat :=
  ⟨p.w * q.x + p.x * q.w + p.y * q.z - p.z * q.y,
   p.w * q.y - p.x * q.z + p.y * q.w + p.z * q.x,
   p.w * q.z + p.x * q.y - p.y * q.x + p.z * q.w,
   p.w * q.w - p.x * q.x - p.y * q.y - p.z * q.z⟩

/-- Axis-angle quaternion for a rotation of `angle` about axis `a`. -/
noncomputable def axisAngle (a : Axis) (angle : ℝ) : Quat :=
  let v := axisVec a
  ⟨Real.sin (angle / 2) * v.1, Real.sin (angle / 2) * v.2.1,
   Real.sin (angle / 2) * v.2.2, Real.cos (angle / 2)⟩

/-- Clamp to the unit interval; the spec clamps the interpolation
progress `t` to `[0,1]` (spec section 4.3). -/
noncomputable def clamp01 (t : ℝ) : ℝ := max 0 (min 1 t)

/-- Modelled from the spec: the orientation at fractional progress `t`
of a gate applied on top of `base`. For a single-axis rotation the
spherical interpolation from the pre-gate orientation to the post-gate
orientation is the rotation by the scaled angle about that axis,
composed in the world frame ("new rotation applied relative to world
axes", spec section 4.3). -/
noncomputable def rotPos (g : AppliedGate) (base : Quat) (t : ℝ) : Quat :=
  quatMul (axisAngle g.axis (clamp01 t * g.angle)) base

/-- Modelled from the spec: the retained-path state of the `Rotations`
engine of the missing `cplx.js` — the current orientation used as the
base for the next gate, and the retained keyframe path of the gate in
flight ("a discretized path of intermediate keyframe positions",
spec section 4.3). -/
structure RotState where
  base : Quat
  path : List Keyframe

/-- Engine state at construction (`new Rotations(64)`): canonical start
orientation, no retained path. -/
def initRotState : RotState := ⟨idQuat, []⟩

/-- Modelled from the spec: number of path keyframes present at
progress `t` with the fixed resolution of 64 steps. -/
noncomputable def keyframeCount (t : ℝ) : ℕ := min 64 (Nat.floor (64 * t))

/-- Modelled from the spec: extend the retained path to cover progress
`t`; previously returned keyframes (with whatever marker references
were recorded on them) are kept, newly reached keyframes carry no
marker reference yet. -/
noncomputable def pathAt (g : AppliedGate) (base : Quat) (t : ℝ) (old : List Keyframe) :
    List Keyframe :=
  old ++ ((List.range (keyframeCount t)).drop old.length).map
    (fun i => ⟨rotPos g base ((i + 1 : ℝ) / 64), none⟩)

/-- Modelled from the spec: `getRotationAtPercent(gate, t)` returns the
slerped orientation (`pos`) plus the discretized keyframe path, and at
`t = 1` commits the post-gate orientation as the base for the next gate
(spec section 4.3). State-passing form: also returns the updated engine
state. -/
noncomputable def getRotationAtPercent (rs : RotState) (g : AppliedGate) (t : ℝ) :
    Quat × RotState :=
  let tc := clamp01 t
  let pos := rotPos g rs.base t
  let newPath := pathAt g rs.base tc rs.path
  let newBase := if 1 ≤ tc then rotPos g rs.base 1 else rs.base
  (pos, ⟨newBase, newPath⟩)

/-! ## The animation queue (`BlochRenderer`) -/

/-- State of a `BlochRenderer` instance together with the locals closed
over by the `processQueue` frame callback (webview.tsx lines 258-267 and
392-464): the pending gate queue, whether an animation callback is
scheduled (`animationCallbackId` nonzero), the gate currently
animating and its start time (the closure locals `currentGate` and
`startTime`), the rotation engine state, the trail group children, and
the qubit group quaternion. -/
structure RState where
  gateQueue : List AppliedGate
  scheduled : Bool
  currentGate : Option AppliedGate
  startTime : ℝ
  rots : RotState
  trail : List Marker
  qubitPos : Quat

/-- Renderer state right after the constructor runs: empty queue, no
callback scheduled, no active gate, fresh engine, empty trail, identity
qubit orientation. -/
def initRenderer : RState :=
  { gateQueue := [], scheduled := false, currentGate := none, startTime := 0,
    rots := initRotState, trail := [], qubitPos := idQuat }

/-- Observable events of one frame step: a gate is popped off the queue
and starts animating, or a gate reaches eased progress 1 and is
completed (its active slot cleared). -/
inductive Event
  | begins (g : AppliedGate)
  | completes (g : AppliedGate)

/-- Body of one `processQueue` invocation once a current gate `g` (with
its start time) is at hand (webview.tsx lines 412-459): compute the
eased progress `t`, query the rotation engine, draw markers for new
path keyframes, set the qubit orientation, fade the trail, clear the
active gate slot when `t ≥ 1`, and reschedule the callback. `evs` are
the events already emitted earlier in this invocation (a pop). -/
noncomputable def advance (s : RState) (g : AppliedGate) (startTime now : ℝ)
    (evs : List Event) : RState × List Event :=
  let t := tAt now startTime
  let pr := getRotationAtPercent s.rots g t
  let dr := drawTrail pr.2.path s.trail
  let newTrail := fadeTrail dr.2
  if 1 ≤ t then
    ({ s with rots := ⟨pr.2.base, dr.1⟩, trail := newTrail, qubitPos := pr.1,
              currentGate := none, startTime := startTime, scheduled := true },
     evs ++ [Event.completes g])
  else
    ({ s with rots := ⟨pr.2.base, dr.1⟩, trail := newTrail, qubitPos := pr.1,
              currentGate := some g, startTime := startTime, scheduled := true },
     evs ++ [])

/-- Embedding of one invocation of the `processQueue` frame callback
(webview.tsx lines 400-460) at wall-clock time `now`: if no gate is
active, pop the next pending gate (recording `now` as its start time
and starting a fresh engine path for it), or go idle
(`animationCallbackId = 0`) if the queue is empty. -/
noncomputable def processQueue (s : RState) (now : ℝ) : RState × List Event :=
  match s.currentGate with
  | some g => advance s g s.startTime now []
  | none =>
    match s.gateQueue with
    | [] => ({ s with scheduled := false }, [])
    | g :: rest =>
      advance { s with gateQueue := rest, rots := ⟨s.rots.base, []⟩ } g now now
        [Event.begins g]

/-- Embedding of `BlochRenderer.queueGate` (webview.tsx lines 392-464)
called at wall-clock time `now`: push the gate; if a callback is
already scheduled, return; otherwise start a fresh `processQueue`
closure (locals `currentGate = undefined`, `startTime = 0`) and run its
first invocation synchronously. -/
noncomputable def queueGate (g : AppliedGate) (now : ℝ) (s : RState) :
    RState × List Event :=
  let s1 := { s with gateQueue := s.gateQueue ++ [g] }
  if s1.scheduled then (s1, [])
  else processQueue { s1 with currentGate := none, startTime := 0 } now

/-- Embedding of `BlochRenderer.rotateX` (webview.tsx line 466). -/
noncomputable def rotateX (angle now : ℝ) (s : RState) : RState × List Event :=
  queueGate (Rotations.rotateX angle) now s

/-- Embedding of `BlochRenderer.rotateY` (webview.tsx line 470). -/
noncomputable def rotateY (angle now : ℝ) (s : RState) : RState × List Event :=
  queueGate (Rotations.rotateY angle) now s

/-- Embedding of `BlochRenderer.rotateZ` (webview.tsx line 474). -/
noncomputable def rotateZ (angle now : ℝ) (s : RState) : RState × List Event :=
  queueGate (Rotations.rotateZ angle) now s

/-- Embedding of `BlochRenderer.rotateH` (webview.tsx line 478). -/
noncomputable def rotateH (angle now : ℝ) (s : RState) : RState × List Event :=
  queueGate (Rotations.rotateH angle) now s

/-- Embedding of `BlochRenderer.reset` (webview.tsx lines 482-491):
resets the rotation engine (canonical orientation, cleared path
history), clears the trail, and sets the qubit orientation back to the
identity. The camera/controls parts are presentation glue outside this
embedding. Note that the gate queue, the scheduled callback, and the
closure locals `currentGate`/`startTime` are not touched. -/
noncomputable def resetRenderer (s : RState) : RState :=
  { s with rots := initRotState, trail := [], qubitPos := idQuat }

/-! ## Driving the renderer: operation sequences -/

/-- One interaction with a renderer instance: a `requestAnimationFrame`
tick at wall-clock time `now` (which invokes the scheduled callback, if
any), a `queueGate` call at time `now`, or a `BlochRenderer.reset`
call. -/
inductive Op
  | frame (now : ℝ)
  | queue (g : AppliedGate) (now : ℝ)
  | reset

/-- Effect of one operation on the renderer state. A frame tick runs
the callback only when one is scheduled. -/
noncomputable def applyOp (s : RState) : Op → RState × List Event
  | Op.frame now => if s.scheduled then processQueue s now else (s, [])
  | Op.queue g now => queueGate g now s
  | Op.reset => (resetRenderer s, [])

/-- Run a sequence of operations, accumulating the emitted events. -/
noncomputable def runOps : List Op → RState → RState × List Event
  | [], s => (s, [])
  | op :: rest, s =>
    let r1 := applyOp s op
    let r2 := runOps rest r1.1
    (r2.1, r1.2 ++ r2.2)

/-- The gates passed to `queueGate` by an operation sequence, in call
order. -/
def pushes : List Op → List AppliedGate
  | [] => []
  | Op.frame _ :: rest => pushes rest
  | Op.queue g _ :: rest => g :: pushes rest
  | Op.reset :: rest => pushes rest

/-- The fully serialized FIFO event trace of a gate list: each gate
begins and then completes before the next begins. -/
def fullTrace : List AppliedGate → List Event
  | [] => []
  | g :: rest => Event.begins g :: Event.completes g :: fullTrace rest

/-- Upper bound for the events a run can still emit: if a gate is
currently active it completes first, then the remaining gates are
serialized FIFO. -/
def traceBound : Option AppliedGate → List AppliedGate → List Event
  | none, gs => fullTrace gs
  | some g, gs => Event.completes g :: fullTrace gs

/-! ## Qubit state and gate matrices (modelled from the spec) -/

/-- Modelled from the spec: the qubit state vector of the missing
`cplx.js`, an ordered pair of complex amplitudes (spec section 3). -/
abbrev Vec2 := ℂ × ℂ

/-- Modelled from the spec: the initial state `Ket0 = (1, 0)`. -/
def Ket0 : Vec2 := (1, 0)

/-- Modelled from the spec: the `vec2` copy constructor of the missing
`cplx.js`; value-identical copy. -/
def vec2 (v : Vec2) : Vec2 := v

/-- A fixed 2x2 complex gate matrix. -/
structure Mat2 where
  m00 : ℂ
  m01 : ℂ
  m10 : ℂ
  m11 : ℂ

/-- Modelled from the spec: standard complex matrix-vector product
`mulVec2` (spec section 4.2). -/
noncomputable def mulVec2 (m : Mat2) (v : Vec2) : Vec2 :=
  (m.m00 * v.1 + m.m01 * v.2, m.m10 * v.1 + m.m11 * v.2)

/-- Modelled from the spec: X = [[0,1],[1,0]]. -/
def PauliX : Mat2 := ⟨0, 1, 1, 0⟩

/-- Modelled from the spec: Y = [[0,-i],[i,0]]. -/
def PauliY : Mat2 := ⟨0, -Complex.I, Complex.I, 0⟩

/-- Modelled from the spec: Z = [[1,0],[0,-1]]. -/
def PauliZ : Mat2 := ⟨1, 0, 0, -1⟩

/-- Modelled from the spec: S = [[1,0],[0,i]]. -/
def SGate : Mat2 := ⟨1, 0, 0, Complex.I⟩

/-- Modelled from the spec: T = [[1,0],[0,exp(i pi/4)]]. -/
noncomputable def TGate : Mat2 := ⟨1, 0, 0, Complex.exp (Complex.I * (Real.pi / 4))⟩

/-- Modelled from the spec: H = (1/sqrt 2)[[1,1],[1,-1]]. -/
noncomputable def Hadamard : Mat2 :=
  ⟨(1 / Real.sqrt 2 : ℝ), (1 / Real.sqrt 2 : ℝ),
   (1 / Real.sqrt 2 : ℝ), (-(1 / Real.sqrt 2) : ℝ)⟩

/-! ## The `BlochSphere` component -/

/-- React-level state of the `BlochSphere` component (webview.tsx lines
499-601) together with its renderer: `gates` is the queued-gate name
history shown as "Applied: ...", `gateArray` records one entry per
rendered LaTeX equation (modelled as the data the equation is rendered
from: gate name, old state, new state), `state` is the qubit amplitude
pair. -/
structure SysState where
  gates : List String
  gateArray : List (String × Vec2 × Vec2)
  state : Vec2
  rend : RState

/-- Component state right after mount with no `gates` prop. -/
def initSystem : SysState :=
  { gates := [], gateArray := [], state := Ket0, rend := initRenderer }

/-- Embedding of the component-level `rotate` (webview.tsx lines
534-592) called at wall-clock time `now`. Returns the new state and
the diagnostics written to `console.error`. The switch dispatches the
six known gate names to the renderer rotation helpers and the matrix
application; an unknown name hits the default branch, which logs one
diagnostic and leaves `newState` at the `vec2` copy of the old state.
After the switch, `setState(newState)` and `setGates([...gates, gate])`
run unconditionally. -/
noncomputable def rotate (gate : String) (now : ℝ) (s : SysState) :
    SysState × List String :=
  if gate = "X" then
    let ns := mulVec2 PauliX s.state
    ({ gates := s.gates ++ [gate],
       gateArray := s.gateArray ++ [("X", s.state, ns)],
       state := ns, rend := (rotateX Real.pi now s.rend).1 }, [])
  else if gate = "Y" then
    let ns := mulVec2 PauliY s.state
    ({ gates := s.gates ++ [gate],
       gateArray := s.gateArray ++ [("Y", s.state, ns)],
       state := ns, rend := (rotateY Real.pi now s.rend).1 }, [])
  else if gate = "Z" then
    let ns := mulVec2 PauliZ s.state
    ({ gates := s.gates ++ [gate],
       gateArray := s.gateArray ++ [("Z", s.state, ns)],
       state := ns, rend := (rotateZ Real.pi now s.rend).1 }, [])
  else if gate = "S" then
    let ns := mulVec2 SGate s.state
    ({ gates := s.gates ++ [gate],
       gateArray := s.gateArray ++ [("S", s.state, ns)],
       state := ns, rend := (rotateZ (Real.pi / 2) now s.rend).1 }, [])
  else if gate = "T" then
    let ns := mulVec2 TGate s.state
    ({ gates := s.gates ++ [gate],
       gateArray := s.gateArray ++ [("T", s.state, ns)],
       state := ns, rend := (rotateZ (Real.pi / 4) now s.rend).1 }, [])
  else if gate = "H" then
    let ns := mulVec2 Hadamard s.state
    ({ gates := s.gates ++ [gate],
       gateArray := s.gateArray ++ [("H", s.state, ns)],
       state := ns, rend := (rotateH Real.pi now s.rend).1 }, [])
  else
    ({ s with gates := s.gates ++ [gate] }, ["Unknown gate: " ++ gate])

/-- Embedding of the component-level `reset` (webview.tsx lines
594-601): clears the gate name history and the equation list, sets the
qubit state back to a copy of `Ket0`, and calls `BlochRenderer.reset`. -/
noncomputable def resetSphere (s : SysState) : SysState :=
  { gates := [], gateArray := [], state := vec2 Ket0,
    rend := resetRenderer s.rend }

/-! ## Basic facts about the easing functions and eased progress -/

theorem easeInOutSine_zero : easeInOutSine 0 = 0 := by
  simp [easeInOutSine]

theorem easeInOutSine_one : easeInOutSine 1 = 1 := by
  simp [easeInOutSine, Real.cos_pi]

theorem easeInOutSine_le_one (x : ℝ) : easeInOutSine x ≤ 1 := by
  have h := Real.neg_one_le_cos (Real.pi * x)
  unfold easeInOutSine
  linarith

theorem tAt_self (a : ℝ) : tAt a a = 0 := by
  unfold tAt
  rw [sub_self, zero_div, if_pos zero_lt_one]
  exact easeInOutSine_zero

theorem tAt_le_one (now st : ℝ) : tAt now st ≤ 1 := by
  by_cases h : (now - st) / rotationTimeMs < 1
  · simp only [tAt, if_pos h]
    exact easeInOutSine_le_one _
  · simp only [tAt, if_neg h]
    exact le_refl 1

/-! ## Projection facts for one frame step -/

theorem advance_proj (s : RState) (g : AppliedGate) (st now : ℝ) (evs : List Event) :
    (advance s g st now evs).1.gateQueue = s.gateQueue ∧
    (advance s g st now evs).1.scheduled = true ∧
    (advance s g st now evs).1.startTime = st ∧
    (advance s g st now evs).1.currentGate = (if 1 ≤ tAt now st then none else some g) ∧
    (advance s g st now evs).2 = evs ++ (if 1 ≤ tAt now st then [Event.completes g] else []) := by
  unfold advance
  by_cases h : 1 ≤ tAt now st <;> simp [h]

theorem queueGate_running (g : AppliedGate) (now : ℝ) (s : RState)
    (h : s.scheduled = true) :
    queueGate g now s = ({ s with gateQueue := s.gateQueue ++ [g] }, []) := by
  unfold queueGate
  simp [h]

theorem queueGate_idle (g : AppliedGate) (now : ℝ) (s : RState)
    (h1 : s.scheduled = false) (h2 : s.gateQueue = []) :
    (queueGate g now s).1.currentGate = some g ∧
    (queueGate g now s).1.gateQueue = [] ∧
    (queueGate g now s).1.scheduled = true ∧
    (queueGate g now s).1.startTime = now ∧
    (queueGate g now s).2 = [Event.begins g] := by
  have hz : ¬ (1 ≤ (0 : ℝ)) := by norm_num
  unfold queueGate processQueue advance
  simp [h1, h2, tAt_self, hz]

theorem processQueue_some (s : RState) (now : ℝ) (g : AppliedGate)
    (h : s.currentGate = some g) :
    processQueue s now = advance s g s.startTime now [] := by
  unfold processQueue
  rw [h]

theorem processQueue_none_nil (s : RState) (now : ℝ)
    (h1 : s.currentGate = none) (h2 : s.gateQueue = []) :
    processQueue s now = ({ s with scheduled := false }, []) := by
  unfold processQueue
  rw [h1, h2]

theorem processQueue_none_cons (s : RState) (now : ℝ) (g : AppliedGate)
    (rest : List AppliedGate) (h1 : s.currentGate = none) (h2 : s.gateQueue = g :: rest) :
    processQueue s now =
      advance { s with gateQueue := rest, rots := ⟨s.rots.base, []⟩ } g now now
        [Event.begins g] := by
  unfold processQueue
  rw [h1, h2]

theorem prefixConsCons {α : Type _} (a : α) {l1 l2 : List α} (h : l1 <+: l2) :
    a :: l1 <+: a :: l2 := by
  obtain ⟨t, ht⟩ := h
  exact ⟨t, by rw [List.cons_append, ht]⟩

theorem not_one_le_zero_real : ¬ (1 ≤ (0 : ℝ)) := by norm_num

theorem advance_pop_current (s : RState) (g : AppliedGate) (now : ℝ) (evs : List Event) :
    (advance s g now now evs).1.currentGate = some g := by
  rw [(advance_proj s g now now evs).2.2.2.1, tAt_self, if_neg not_one_le_zero_real]

theorem advance_pop_events (s : RState) (g : AppliedGate) (now : ℝ) (evs : List Event) :
    (advance s g now now evs).2 = evs := by
  rw [(advance_proj s g now now evs).2.2.2.2, tAt_self, if_neg not_one_le_zero_real,
    List.append_nil]

/-- Safety of the animation queue: however a renderer instance is
driven (frame ticks at arbitrary times, gate queuing, resets), the
emitted begin/complete events form a prefix of the fully serialized
FIFO trace of the remaining and queued gates. -/
theorem runOps_bound : ∀ (ops : List Op) (s : RState),
    (s.scheduled = false → s.gateQueue = [] ∧ s.currentGate = none) →
    (runOps ops s).2 <+: traceBound s.currentGate (s.gateQueue ++ pushes ops) := by
  intro ops
  induction ops with
  | nil =>
    intro s _
    simp only [runOps]
    exact List.nil_prefix
  | cons op rest ih =>
    intro s hs
    simp only [runOps]
    cases op with
    | reset =>
      have h1 : applyOp s Op.reset = (resetRenderer s, []) := rfl
      rw [h1]
      simp only [List.nil_append, pushes]
      have hinv : (resetRenderer s).scheduled = false →
          (resetRenderer s).gateQueue = [] ∧ (resetRenderer s).currentGate = none := by
        intro hc
        exact hs hc
      have := ih (resetRenderer s) hinv
      simpa [resetRenderer] using this
    | frame now =>
      by_cases hsch : s.scheduled = true
      · cases hcur : s.currentGate with
        | none =>
          cases hq : s.gateQueue with
          | nil =>
            have h1 : applyOp s (Op.frame now) = ({ s with scheduled := false }, []) := by
              simp only [applyOp, hsch, if_true]
              exact processQueue_none_nil s now hcur hq
            rw [h1]
            simp only [List.nil_append, pushes]
            have hinv : ({ s with scheduled := false } : RState).scheduled = false →
                ({ s with scheduled := false } : RState).gateQueue = [] ∧
                ({ s with scheduled := false } : RState).currentGate = none := by
              intro _
              exact ⟨hq, hcur⟩
            have hr := ih { s with scheduled := false } hinv
            rw [hcur, hq]
            simpa [hcur, hq] using hr
          | cons g rest' =>
            have h1 : applyOp s (Op.frame now) =
                advance { s with gateQueue := rest', rots := ⟨s.rots.base, []⟩ } g now now
                  [Event.begins g] := by
              simp only [applyOp, hsch, if_true]
              exact processQueue_none_cons s now g rest' hcur hq
            rw [h1]
            set A : RState := { s with gateQueue := rest', rots := ⟨s.rots.base, []⟩ }
            have hp := advance_proj A g now now [Event.begins g]
            have hinv : (advance A g now now [Event.begins g]).1.scheduled = false →
                (advance A g now now [Event.begins g]).1.gateQueue = [] ∧
                (advance A g now now [Event.begins g]).1.currentGate = none := by
              intro hc
              rw [hp.2.1] at hc
              exact absurd hc (by simp)
            have hr := ih (advance A g now now [Event.begins g]).1 hinv
            rw [hp.1, advance_pop_current] at hr
            have hAq : A.gateQueue = rest' := rfl
            rw [hAq] at hr
            rw [advance_pop_events]
            simp only [pushes, traceBound, fullTrace, List.cons_append,
              List.singleton_append, List.append_assoc] at hr ⊢
            exact prefixConsCons (Event.begins g) hr
        | some g =>
          have h1 : applyOp s (Op.frame now) = advance s g s.startTime now [] := by
            simp only [applyOp, hsch, if_true]
            exact processQueue_some s now g hcur
          rw [h1]
          have hp := advance_proj s g s.startTime now []
          have hinv : (advance s g s.startTime now []).1.scheduled = false →
              (advance s g s.startTime now []).1.gateQueue = [] ∧
              (advance s g s.startTime now []).1.currentGate = none := by
            intro hc
            rw [hp.2.1] at hc
            exact absurd hc (by simp)
          have hr := ih (advance s g s.startTime now []).1 hinv
          rw [hp.1, hp.2.2.2.1] at hr
          rw [hp.2.2.2.2]
          by_cases hdone : 1 ≤ tAt now s.startTime
          · rw [if_pos hdone] at hr ⊢
            simp only [pushes, traceBound, fullTrace, List.nil_append,
              List.singleton_append] at hr ⊢
            exact prefixConsCons (Event.completes g) hr
          · rw [if_neg hdone] at hr ⊢
            simp only [pushes, traceBound, List.nil_append] at hr ⊢
            exact hr
      · have hsch' : s.scheduled = false := by
          cases hb : s.scheduled
          · rfl
          · exact absurd hb hsch
        have h1 : applyOp s (Op.frame now) = (s, []) := by
          simp only [applyOp, hsch', Bool.false_eq_true, if_false]
        rw [h1]
        simp only [List.nil_append, pushes]
        exact ih s hs
    | queue g now =>
      by_cases hsch : s.scheduled = true
      · have h1 : applyOp s (Op.queue g now) =
            ({ s with gateQueue := s.gateQueue ++ [g] }, []) := by
          simp only [applyOp]
          exact queueGate_running g now s hsch
        rw [h1]
        simp only [List.nil_append, pushes]
        have hinv : ({ s with gateQueue := s.gateQueue ++ [g] } : RState).scheduled = false →
            ({ s with gateQueue := s.gateQueue ++ [g] } : RState).gateQueue = [] ∧
            ({ s with gateQueue := s.gateQueue ++ [g] } : RState).currentGate = none := by
          intro hc
          simp only at hc
          rw [hc] at hsch
          exact absurd hsch (by simp)
        have hr := ih { s with gateQueue := s.gateQueue ++ [g] } hinv
        simp only [List.append_assoc, List.singleton_append] at hr
        exact hr
      · have hsch' : s.scheduled = false := by
          cases hb : s.scheduled
          · rfl
          · exact absurd hb hsch
        obtain ⟨hq, hcur⟩ := hs hsch'
        have h1 : applyOp s (Op.queue g now) =
            advance { s with gateQueue := [], currentGate := none, startTime := 0,
                             rots := ⟨s.rots.base, []⟩ } g now now [Event.begins g] := by
          simp only [applyOp]
          unfold queueGate
          simp only [hsch', hq, List.nil_append, Bool.false_eq_true, if_false]
          have := processQueue_none_cons
            { s with gateQueue := [g], currentGate := none, startTime := 0 } now g []
            rfl rfl
          simpa using this
        rw [h1]
        set A : RState := { s with gateQueue := [], currentGate := none, startTime := 0,
                                   rots := ⟨s.rots.base, []⟩ }
        have hp := advance_proj A g now now [Event.begins g]
        have hinv : (advance A g now now [Event.begins g]).1.scheduled = false →
            (advance A g now now [Event.begins g]).1.gateQueue = [] ∧
            (advance A g now now [Event.begins g]).1.currentGate = none := by
          intro hc
          rw [hp.2.1] at hc
          exact absurd hc (by simp)
        have hr := ih (advance A g now now [Event.begins g]).1 hinv
        rw [hp.1, advance_pop_current] at hr
        have hAq : A.gateQueue = [] := rfl
        rw [hAq] at hr
        rw [advance_pop_events]
        rw [hcur, hq]
        simp only [pushes, traceBound, fullTrace, List.nil_append] at hr ⊢
        exact prefixConsCons (Event.begins g) hr

/-! ## Facts about the marker-creation pass -/

theorem drawTrail_length : ∀ (path : List Keyframe) (trail : List Marker),
    (drawTrail path trail).1.length = path.length := by
  intro path
  induction path with
  | nil => intro _; rfl
  | cons kf rest ih =>
    intro trail
    cases href : kf.ref with
    | some r => simp [drawTrail, href, ih]
    | none => simp [drawTrail, href, ih]

theorem drawTrail_trail : ∀ (path : List Keyframe) (trail : List Marker),
    ∃ new, (drawTrail path trail).2 = trail ++ new ∧
      new.map Marker.pos = (path.filter (fun kf => kf.ref.isNone)).map Keyframe.pos := by
  intro path
  induction path with
  | nil => intro trail; exact ⟨[], by simp [drawTrail]⟩
  | cons kf rest ih =>
    intro trail
    cases href : kf.ref with
    | some r =>
      obtain ⟨new, h1, h2⟩ := ih trail
      refine ⟨new, ?_, ?_⟩
      · simp [drawTrail, href, h1]
      · simp [href, h2]
    | none =>
      obtain ⟨new, h1, h2⟩ := ih (trail ++ [⟨trail.length, kf.pos, 0⟩])
      refine ⟨⟨trail.length, kf.pos, 0⟩ :: new, ?_, ?_⟩
      · simp only [drawTrail, href, h1, List.append_assoc, List.singleton_append]
      · simp [href, h2]

theorem drawTrail_get_keep : ∀ (path : List Keyframe) (trail : List Marker) (i : ℕ)
    (kf : Keyframe), path[i]? = some kf → kf.ref.isSome = true →
    ((drawTrail path trail).1)[i]? = some kf := by
  intro path
  induction path with
  | nil => intro trail i kf h _; simp at h
  | cons kf0 rest ih =>
    intro trail i kf h hs
    cases i with
    | zero =>
      simp only [List.getElem?_cons_zero, Option.some.injEq] at h
      subst h
      cases href : kf0.ref with
      | some r => simp [drawTrail, href]
      | none => rw [href] at hs; simp at hs
    | succ n =>
      simp only [List.getElem?_cons_succ] at h
      cases href : kf0.ref with
      | some r =>
        simp only [drawTrail, href]
        simpa using ih trail n kf h hs
      | none =>
        simp only [drawTrail, href]
        simpa using ih (trail ++ [⟨trail.length, kf0.pos, 0⟩]) n kf h hs

theorem drawTrail_get_new : ∀ (path : List Keyframe) (trail : List Marker) (i : ℕ)
    (kf : Keyframe), path[i]? = some kf → kf.ref = none →
    ∃ handle, ((drawTrail path trail).1)[i]? = some ⟨kf.pos, some handle⟩ := by
  intro path
  induction path with
  | nil => intro trail i kf h _; simp at h
  | cons kf0 rest ih =>
    intro trail i kf h hn
    cases i with
    | zero =>
      simp only [List.getElem?_cons_zero, Option.some.injEq] at h
      subst h
      exact ⟨trail.length, by simp [drawTrail, hn]⟩
    | succ n =>
      simp only [List.getElem?_cons_succ] at h
      cases href : kf0.ref with
      | some r =>
        obtain ⟨handle, hh⟩ := ih trail n kf h hn
        exact ⟨handle, by simpa [drawTrail, href] using hh⟩
      | none =>
        obtain ⟨handle, hh⟩ := ih (trail ++ [⟨trail.length, kf0.pos, 0⟩]) n kf h hn
        exact ⟨handle, by simpa [drawTrail, href] using hh⟩

/-! ## Facts about the fade pass -/

theorem fadeTrailGo_map (n : ℕ) : ∀ (l : List Marker) (i : ℕ),
    (fadeTrailGo n i l).map Marker.sat = (List.range' i l.length).map (fadeSat n) := by
  intro l
  induction l with
  | nil => intro i; simp [fadeTrailGo]
  | cons m rest ih =>
    intro i
    rw [List.length_cons, List.range'_succ]
    simp [fadeTrailGo, ih (i + 1)]

theorem fadeTrail_map (trail : List Marker) :
    (fadeTrail trail).map Marker.sat =
      (List.range trail.length).map (fadeSat trail.length) := by
  unfold fadeTrail
  rw [fadeTrailGo_map, ← List.range_eq_range']

theorem easeOutSine_one : easeOutSine 1 = 1 := by
  unfold easeOutSine
  rw [one_mul, Real.sin_pi_div_two]

theorem easeOutSine_mono {x y : ℝ} (hx : 0 ≤ x) (hxy : x ≤ y) (hy : y ≤ 1) :
    easeOutSine x ≤ easeOutSine y := by
  have hπ := Real.pi_pos
  have hx2 : x * Real.pi / 2 ≤ Real.pi / 2 := by nlinarith
  have hy2 : y * Real.pi / 2 ≤ Real.pi / 2 := by nlinarith
  have hy0 : 0 ≤ y := hx.trans hxy
  have hx1 : 0 ≤ x * Real.pi / 2 := by positivity
  have hy1 : 0 ≤ y * Real.pi / 2 := by positivity
  have harg : x * Real.pi / 2 ≤ y * Real.pi / 2 := by nlinarith
  exact Real.strictMonoOn_sin.monotoneOn
    ⟨by linarith, hx2⟩ ⟨by linarith, hy2⟩ harg

theorem fadeSat_mono (n i j : ℕ) (hij : i ≤ j) (hj : j < n) :
    fadeSat n i ≤ fadeSat n j := by
  have hn : 0 < n := Nat.lt_of_le_of_lt (Nat.zero_le j) hj
  have hnR : (0 : ℝ) < n := by exact_mod_cast hn
  apply easeOutSine_mono
  · exact div_nonneg (by positivity) hnR.le
  · rw [div_le_div_iff_of_pos_right hnR]
    have : (i : ℝ) ≤ (j : ℝ) := by exact_mod_cast hij
    linarith
  · rw [div_le_one hnR]
    exact_mod_cast hj

theorem fadeSat_last (n : ℕ) (hn : 0 < n) : fadeSat n (n - 1) = 1 := by
  have hne : (n : ℝ) ≠ 0 := by
    have : (0 : ℝ) < n := by exact_mod_cast hn
    linarith
  have h1 : ((n - 1 : ℕ) + 1 : ℝ) / n = 1 := by
    rw [Nat.cast_sub hn]
    field_simp
  unfold fadeSat
  rw [h1]
  exact easeOutSine_one

/-! ## Monotonicity of the ease-in-out curve -/

theorem easeInOutSine_monotoneOn : MonotoneOn easeInOutSine (Set.Icc (0 : ℝ) 1) := by
  intro x hx y hy hxy
  have hπ := Real.pi_pos
  have hc : Real.cos (Real.pi * y) ≤ Real.cos (Real.pi * x) := by
    apply Real.cos_le_cos_of_nonneg_of_le_pi
    · exact mul_nonneg hπ.le hx.1
    · nlinarith [hy.2]
    · nlinarith [hxy]
  unfold easeInOutSine
  linarith

/-! ## Facts about the message handler -/

theorem onMessage_preserves (m : Msg) (s : WebState) (h : s.showEstimates = true) :
    ((onMessage m s).1).showEstimates = true := by
  unfold onMessage
  cases hc : m.command with
  | none => simpa using h
  | some c =>
    by_cases h1 : c = "" <;> by_cases h2 : c = "update" <;> by_cases h3 : c = "estimate" <;>
      cases hb : m.buckets <;> cases hsc : m.shotCount <;>
        simp [h1, h2, h3, hb, hsc, h]

theorem onMessage_estimate (m : Msg) (s : WebState) (h : m.command = some "estimate") :
    ((onMessage m s).1).showEstimates = true := by
  unfold onMessage
  rw [h]
  simp

theorem onMessage_foldl (ms : List Msg) : ∀ (s : WebState), s.showEstimates = true →
    ((ms.foldl (fun st m => (onMessage m st).1) s).showEstimates = true) := by
  induction ms with
  | nil => intro s h; simpa using h
  | cons m rest ih =>
    intro s h
    simp only [List.foldl_cons]
    exact ih _ (onMessage_preserves m s h)

/-! ## Concrete run used to refute the reset claim -/

/-- First interaction of the refuting run: the X button is clicked at
time 0 on a fresh component. -/
noncomputable def cSysA : SysState := (rotate "X" 0 initSystem).1

/-- Second interaction: the Y button is clicked at time 100, while the
X gate (750 ms long) is still animating. -/
noncomputable def cSysB : SysState := (rotate "Y" 100 cSysA).1

/-! ## Claim theorems -/

/-- C1 counterexample: the claim "after reset() the pending gate
sequence is empty, there is no active gate, and the animation queue is
Idle" is false at a concrete input: click X at time 0, click Y at time
100 (while X is still animating), then click Reset. After the reset the
pending queue still holds the Y gate, the X gate is still the active
gate, and an animation callback is still scheduled, because
`BlochRenderer.reset` never touches `gateQueue`,
`animationCallbackId`, or the closure locals of `processQueue`. -/
theorem reset_pending_counterexample :
    ¬ ((resetSphere cSysB).rend.gateQueue = [] ∧
       (resetSphere cSysB).rend.currentGate = none ∧
       (resetSphere cSysB).rend.scheduled = false) := by
  intro hcl
  have hA := queueGate_idle (Rotations.rotateX Real.pi) 0 initRenderer rfl rfl
  have hAr : cSysA.rend = (queueGate (Rotations.rotateX Real.pi) 0 initRenderer).1 := rfl
  have hsch : cSysA.rend.scheduled = true := by rw [hAr]; exact hA.2.2.1
  have hBr : cSysB.rend = (queueGate (Rotations.rotateY Real.pi) 100 cSysA.rend).1 := rfl
  have hrun := queueGate_running (Rotations.rotateY Real.pi) 100 cSysA.rend hsch
  have hq2 : cSysB.rend.gateQueue = [Rotations.rotateY Real.pi] := by
    rw [hBr, hrun]
    show cSysA.rend.gateQueue ++ [Rotations.rotateY Real.pi] = _
    rw [hAr, hA.2.1]
    rfl
  have hq3 : (resetSphere cSysB).rend.gateQueue = [Rotations.rotateY Real.pi] := hq2
  rw [hq3] at hcl
  exact absurd hcl.1 (by simp)

/-- C1 (amended): component `reset` clears the gate name history, the
equation list, and the trail, restores the qubit state to `Ket0 =
(1,0)`, and resets the rotation engine and qubit orientation — but it
leaves the pending gate queue, the active gate, its start time, and the
scheduled animation callback untouched, so gates queued before the
reset continue to animate. -/
theorem reset_state_amended (sys : SysState) :
    (resetSphere sys).state = Ket0 ∧
    (resetSphere sys).gates = [] ∧
    (resetSphere sys).gateArray = [] ∧
    (resetSphere sys).rend.trail = [] ∧
    (resetSphere sys).rend.rots = initRotState ∧
    (resetSphere sys).rend.qubitPos = idQuat ∧
    (resetSphere sys).rend.gateQueue = sys.rend.gateQueue ∧
    (resetSphere sys).rend.currentGate = sys.rend.currentGate ∧
    (resetSphere sys).rend.scheduled = sys.rend.scheduled ∧
    (resetSphere sys).rend.startTime = sys.rend.startTime :=
  ⟨rfl, rfl, rfl, rfl, rfl, rfl, rfl, rfl, rfl, rfl⟩

/-- C2 counterexample: queueing the unknown gate name "Q" is not a
no-op on the queued-gate name history: the source runs
`setGates([...gates, gate])` unconditionally after the switch, so the
unknown name is appended to the displayed history. -/
theorem rotate_unknown_counterexample :
    ¬ ((rotate "Q" 0 initSystem).1.gates = initSystem.gates) := by
  have h : (rotate "Q" 0 initSystem).1.gates = ["Q"] := rfl
  rw [h]
  simp [initSystem]

/-- C2 (amended): for every gate name outside {X, Y, Z, S, T, H},
`rotate` produces exactly one diagnostic and leaves the qubit amplitude
pair, the equation list, the trail, and the animation gate queue
unchanged, but it appends the unknown name to the queued-gate name
history. -/
theorem rotate_unknown_amended (g : String) (now : ℝ) (s : SysState)
    (h1 : g ≠ "X") (h2 : g ≠ "Y") (h3 : g ≠ "Z") (h4 : g ≠ "S")
    (h5 : g ≠ "T") (h6 : g ≠ "H") :
    rotate g now s = ({ s with gates := s.gates ++ [g] }, ["Unknown gate: " ++ g]) := by
  unfold rotate
  simp [h1, h2, h3, h4, h5, h6]

theorem rotate_unknown_witness :
    ("Q" : String) ≠ "X" ∧
    rotate "Q" 0 initSystem =
      ({ initSystem with gates := initSystem.gates ++ ["Q"] }, ["Unknown gate: " ++ "Q"]) := by
  refine ⟨by decide, ?_⟩
  exact rotate_unknown_amended "Q" 0 initSystem (by decide) (by decide) (by decide)
    (by decide) (by decide) (by decide)

/-- C3: for every way of driving a fresh renderer (any interleaving of
`queueGate` calls, frame ticks at arbitrary times, and resets), the
emitted events form a prefix of the fully serialized FIFO trace of the
queued gates: gates begin in exactly the order they were queued, no
gate is reordered or cancelled, at most one gate is active at a time
(the active slot is a single option), and each gate completes — with
its eased progress capped at exactly 1 (`tAt` never exceeds 1) — before
the next gate is popped and begins. -/
theorem queue_fifo (ops : List Op) :
    (runOps ops initRenderer).2 <+: fullTrace (pushes ops) ∧
    (∀ now st : ℝ, tAt now st ≤ 1) := by
  constructor
  · have h := runOps_bound ops initRenderer (fun _ => ⟨rfl, rfl⟩)
    simpa [initRenderer, traceBound] using h
  · exact tAt_le_one

/-- C4: `rotate` dispatches each recognized gate name to the rotation
the spec assigns to it: X, Y, Z rotate by pi about the x, y, z axes, H
rotates by pi about the Hadamard axis, S by pi/2 about the z axis, and
T by pi/4 about the z axis. -/
theorem rotate_dispatch (now : ℝ) (s : SysState) :
    (rotate "X" now s).1.rend = (queueGate ⟨Axis.x, Real.pi⟩ now s.rend).1 ∧
    (rotate "Y" now s).1.rend = (queueGate ⟨Axis.y, Real.pi⟩ now s.rend).1 ∧
    (rotate "Z" now s).1.rend = (queueGate ⟨Axis.z, Real.pi⟩ now s.rend).1 ∧
    (rotate "S" now s).1.rend = (queueGate ⟨Axis.z, Real.pi / 2⟩ now s.rend).1 ∧
    (rotate "T" now s).1.rend = (queueGate ⟨Axis.z, Real.pi / 4⟩ now s.rend).1 ∧
    (rotate "H" now s).1.rend = (queueGate ⟨Axis.h, Real.pi⟩ now s.rend).1 :=
  ⟨rfl, rfl, rfl, rfl, rfl, rfl⟩

/-- C5: the per-frame eased progress is `t = easeInOutSine(x)` for
elapsed fraction `x = elapsed / 750` while `x < 1` and `t = 1` once
`x ≥ 1`; `easeInOutSine(x) = -(cos(pi x) - 1)/2` is monotonically
non-decreasing on [0,1] with value 0 at 0 and 1 at 1. -/
theorem easing_curve (now st : ℝ) :
    ((now - st) / rotationTimeMs < 1 →
      tAt now st = easeInOutSine ((now - st) / rotationTimeMs)) ∧
    (1 ≤ (now - st) / rotationTimeMs → tAt now st = 1) ∧
    (∀ x : ℝ, easeInOutSine x = -(Real.cos (Real.pi * x) - 1) / 2) ∧
    easeInOutSine 0 = 0 ∧ easeInOutSine 1 = 1 ∧
    MonotoneOn easeInOutSine (Set.Icc (0 : ℝ) 1) ∧
    rotationTimeMs = 750 := by
  refine ⟨?_, ?_, fun _ => rfl, easeInOutSine_zero, easeInOutSine_one,
    easeInOutSine_monotoneOn, rfl⟩
  · intro h
    simp only [tAt, if_pos h]
  · intro h
    simp only [tAt, if_neg (not_lt.mpr h)]

theorem easing_curve_witness :
    ((0 : ℝ) - 0) / rotationTimeMs < 1 ∧
    tAt 0 0 = easeInOutSine (((0 : ℝ) - 0) / rotationTimeMs) := by
  have h : ((0 : ℝ) - 0) / rotationTimeMs < 1 := by norm_num [rotationTimeMs]
  exact ⟨h, (easing_curve 0 0).1 h⟩

/-- C6: the fade pass assigns the trail entry at 0-based index `idx` of
an `n`-entry trail the weight `easeOutSine((idx + 1) / n)`; this weight
is monotonically non-decreasing in `idx`, and the most recent entry
(index `n - 1`) receives the maximal weight `easeOutSine(1) = 1`. -/
theorem trail_fade (trail : List Marker) :
    ((fadeTrail trail).map Marker.sat =
      (List.range trail.length).map (fadeSat trail.length)) ∧
    (∀ n i j : ℕ, i ≤ j → j < n → fadeSat n i ≤ fadeSat n j) ∧
    (∀ n : ℕ, 0 < n → fadeSat n (n - 1) = 1) ∧
    easeOutSine 1 = 1 :=
  ⟨fadeTrail_map trail, fadeSat_mono, fadeSat_last, easeOutSine_one⟩

theorem trail_fade_witness :
    ((0 : ℕ) ≤ 1 ∧ (1 : ℕ) < 2) ∧ fadeSat 2 0 ≤ fadeSat 2 1 :=
  ⟨⟨by decide, by decide⟩, (trail_fade []).2.1 2 0 1 (by decide) (by decide)⟩

/-- C7: in one marker-creation pass, exactly the path keyframes with an
unset marker reference get a marker created, appended to the trail, and
recorded into the keyframe reference; keyframes that already hold a
reference are returned unchanged, no duplicate markers are created (the
new markers correspond one-to-one, in order, to the reference-free
keyframes), and existing trail entries are untouched (the old trail is
a prefix of the new one). -/
theorem draw_markers (path : List Keyframe) (trail : List Marker) :
    ((drawTrail path trail).1.length = path.length) ∧
    (∀ (i : ℕ) (kf : Keyframe), path[i]? = some kf → kf.ref.isSome = true →
        ((drawTrail path trail).1)[i]? = some kf) ∧
    (∀ (i : ℕ) (kf : Keyframe), path[i]? = some kf → kf.ref = none →
        ∃ handle, ((drawTrail path trail).1)[i]? = some ⟨kf.pos, some handle⟩) ∧
    (∃ new, (drawTrail path trail).2 = trail ++ new ∧
        new.map Marker.pos = (path.filter (fun kf => kf.ref.isNone)).map Keyframe.pos) :=
  ⟨drawTrail_length path trail,
   fun i kf h1 h2 => drawTrail_get_keep path trail i kf h1 h2,
   fun i kf h1 h2 => drawTrail_get_new path trail i kf h1 h2,
   drawTrail_trail path trail⟩

theorem draw_markers_witness :
    (([(⟨idQuat, some 7⟩ : Keyframe), ⟨idQuat, none⟩])[0]? =
      some (⟨idQuat, some 7⟩ : Keyframe)) ∧
    ((drawTrail [⟨idQuat, some 7⟩, ⟨idQuat, none⟩] []).1)[0]? =
      some (⟨idQuat, some 7⟩ : Keyframe) :=
  ⟨rfl, (draw_markers [⟨idQuat, some 7⟩, ⟨idQuat, none⟩] []).2.1 0 ⟨idQuat, some 7⟩ rfl rfl⟩

/-- C8: a message without a command, with an unrecognized command, or
an update whose buckets are missing or whose shot count is not a
number, leaves the webview state unchanged and does not invoke a
re-render. -/
theorem bad_message_ignored (m : Msg) (s : WebState)
    (h : (m.command ≠ some "update" ∧ m.command ≠ some "estimate") ∨
         (m.command = some "update" ∧ (m.buckets = none ∨ m.shotCount = none))) :
    onMessage m s = (s, false) := by
  unfold onMessage
  rcases h with ⟨h1, h2⟩ | ⟨h1, h2⟩
  · cases hc : m.command with
    | none => rfl
    | some c =>
      rw [hc] at h1 h2
      have hc1 : c ≠ "update" := fun e => h1 (by rw [e])
      have hc2 : c ≠ "estimate" := fun e => h2 (by rw [e])
      by_cases h0 : c = "" <;> simp [h0, hc1, hc2]
  · rw [h1]
    rcases h2 with hb | hsc
    · cases hsc2 : m.shotCount <;> simp [hb, hsc2]
    · cases hb2 : m.buckets <;> simp [hsc, hb2]

theorem bad_message_witness :
    ((⟨some "bogus", none, none⟩ : Msg).command ≠ some "update") ∧
    onMessage ⟨some "bogus", none, none⟩ initWebState = (initWebState, false) :=
  ⟨by decide, bad_message_ignored ⟨some "bogus", none, none⟩ initWebState
    (Or.inl ⟨by decide, by decide⟩)⟩

/-- C9: processing an estimate message sets `showEstimates`, and once
it is set, no message-handling path ever clears it: it survives every
single message and every message sequence. -/
theorem estimates_sticky :
    (∀ (m : Msg) (s : WebState), s.showEstimates = true →
        ((onMessage m s).1).showEstimates = true) ∧
    (∀ (m : Msg) (s : WebState), m.command = some "estimate" →
        ((onMessage m s).1).showEstimates = true) ∧
    (∀ (ms : List Msg) (s : WebState), s.showEstimates = true →
        ((ms.foldl (fun st m => (onMessage m st).1) s).showEstimates = true)) :=
  ⟨onMessage_preserves, onMessage_estimate, onMessage_foldl⟩

theorem estimates_sticky_witness :
    (⟨[], 0, true⟩ : WebState).showEstimates = true ∧
    ((onMessage ⟨some "update", some [("0", 1)], some 5⟩ ⟨[], 0, true⟩).1).showEstimates
      = true :=
  ⟨rfl, estimates_sticky.1 ⟨some "update", some [("0", 1)], some 5⟩ ⟨[], 0, true⟩ rfl⟩

/-- C10: a `queueGate` call made while the animation callback is
scheduled only appends the gate to the end of the queue and returns:
the qubit orientation, the trail, the rotation engine state, the
currently animating gate, its start time, and the scheduled-callback
flag are all unchanged, and no event is emitted by the call. -/
theorem queueGate_while_running (s : RState) (g : AppliedGate) (now : ℝ)
    (h : s.scheduled = true) :
    (queueGate g now s).1.gateQueue = s.gateQueue ++ [g] ∧
    (queueGate g now s).1.currentGate = s.currentGate ∧
    (queueGate g now s).1.startTime = s.startTime ∧
    (queueGate g now s).1.scheduled = s.scheduled ∧
    (queueGate g now s).1.qubitPos = s.qubitPos ∧
    (queueGate g now s).1.trail = s.trail ∧
    (queueGate g now s).1.rots = s.rots ∧
    (queueGate g now s).2 = [] := by
  rw [queueGate_running g now s h]
  exact ⟨rfl, rfl, rfl, rfl, rfl, rfl, rfl, rfl⟩

/-- Concrete running renderer state used to exercise the early-return
path of `queueGate`. -/
def wRState : RState :=
  { gateQueue := [], scheduled := true, currentGate := none, startTime := 0,
    rots := initRotState, trail := [], qubitPos := idQuat }

theorem queueGate_while_running_witness :
    wRState.scheduled = true ∧
    (queueGate ⟨Axis.x, 1⟩ 0 wRState).1.gateQueue = wRState.gateQueue ++ [⟨Axis.x, 1⟩] :=
  ⟨rfl, (queueGate_while_running wRState ⟨Axis.x, 1⟩ 0 rfl).1⟩
